import Mathlib

/-!
Verification development for the mdbook-scientific preprocessor.

The Rust sources are embedded shallowly: strings are lists of characters
(`List Char`), byte offsets are computed through the UTF-8 length of each
character, fallible operations (slicing panics, `unwrap`, `assert!`) are
modelled with `Option`, and the stateful line scanner is explicit state
passing.  Definitions follow `src/preprocess/mod.rs` and `src/types.rs`
function by function.
-/

set_option maxRecDepth 4000

/-- Characters of a string literal, the uniform string representation used
throughout this development. -/
def strL (s : String) : List Char := s.data

/-- UTF-8 byte length of one character, as used by Rust `str::len` and
`char_indices` byte offsets. -/
def utf8Len (c : Char) : Nat :=
  if c.toNat < 0x80 then 1
  else if c.toNat < 0x800 then 2
  else if c.toNat < 0x10000 then 3
  else 4

/-- UTF-8 byte length of a string (`str::len`). -/
def byteLen (s : List Char) : Nat := (s.map utf8Len).sum

/-- Split off exactly `n` UTF-8 bytes from the front of a string; `none` when
`n` overflows the string or falls inside a character (a Rust slicing panic). -/
def byteSplitAt : Nat → List Char → Option (List Char × List Char)
  | 0, s => some ([], s)
  | _ + 1, [] => none
  | n + 1, c :: cs =>
    if utf8Len c ≤ n + 1 then
      match byteSplitAt (n + 1 - utf8Len c) cs with
      | some (a, b) => some (c :: a, b)
      | none => none
    else none

/-- The byte-range slice `&s[a..b]`; `none` models the Rust panics
(`a > b`, out of bounds, or a non-boundary index). -/
def byteSlice (s : List Char) (a b : Nat) : Option (List Char) :=
  if a ≤ b then
    match byteSplitAt a s with
    | none => none
    | some (_, rest) =>
      match byteSplitAt (b - a) rest with
      | none => none
      | some (mid, _) => some mid
  else none

/-- Generic single-character split, the semantics of Rust `str::split(c)`:
`n` separators yield `n + 1` pieces, possibly empty. -/
def splitChar (sep : Char) : List Char → List (List Char)
  | [] => [[]]
  | c :: rest =>
    let r := splitChar sep rest
    if c = sep then [] :: r
    else
      match r with
      | h :: t => (c :: h) :: t
      | [] => [[c]]

/-- Drop one trailing carriage return, as Rust `str::lines` does per line. -/
def stripCR (l : List Char) : List Char :=
  if l.getLast? = some '\r' then l.dropLast else l

/-- The semantics of Rust `str::lines()`: split on newline, drop the final
empty piece produced by a trailing newline (or by emptiness), strip one
trailing carriage return from every line. -/
def rustLines (s : List Char) : List (List Char) :=
  let ps := splitChar '\n' s
  let ps := if ps.getLast? = some [] then ps.dropLast else ps
  ps.map stripCR

/-- `types.rs` `LiCo`: a line/column position. -/
structure LiCo where
  lineno : Nat
  column : Nat
deriving DecidableEq, Repr

/-- Lexicographic strict order of `LiCo` (the derived Rust `Ord`). -/
def licoLt (a b : LiCo) : Bool :=
  Nat.blt a.lineno b.lineno || (Nat.beq a.lineno b.lineno && Nat.blt a.column b.column)

/-- Lexicographic order of `LiCo` (the derived Rust `Ord`). -/
def licoLe (a b : LiCo) : Bool :=
  licoLt a b || (Nat.beq a.lineno b.lineno && Nat.beq a.column b.column)

/-- `types.rs` `Dollar`: a delimiter tag carrying its source text. -/
inductive Dollar where
  | Start (s : List Char)
  | End (s : List Char)
  | Empty
deriving DecidableEq, Repr

/-- `Dollar::as_str`. -/
def Dollar.str : Dollar → List Char
  | .Start s => s
  | .End s => s
  | .Empty => []

/-- `Dollar::is_block`: the delimiter text starts with `$$`. -/
def Dollar.isBlockDel (d : Dollar) : Bool := (strL "$$").isPrefixOf d.str

/-- `preprocess/mod.rs` `SplitTagPosition`: one boundary event. -/
structure SplitTagPosition where
  lico : LiCo
  byte_offset : Nat
  which : Dollar
deriving DecidableEq, Repr

/-- The character-by-character scan of one non-block line in
`dollar_split_tags_iter`: backticks toggle the inline-code flag, a dollar
outside inline code toggles the between-dollars flag and emits an event at
its character column and `line-start + in-line byte offset`. -/
def scanInlineGo (lineno ofs : Nat) :
    List Char → Nat → Nat → Bool → Bool → List SplitTagPosition
  | [], _, _, _, _ => []
  | c :: rest, ci, bi, code, between =>
    if c = '$' then
      if code then scanInlineGo lineno ofs rest (ci + 1) (bi + utf8Len c) code between
      else
        { lico := ⟨lineno, ci⟩, byte_offset := ofs + bi,
          which := if !between then .Start [c] else .End [c] } ::
          scanInlineGo lineno ofs rest (ci + 1) (bi + utf8Len c) code (!between)
    else if c = Char.ofNat 96 then
      scanInlineGo lineno ofs rest (ci + 1) (bi + utf8Len c) (!code) between
    else
      scanInlineGo lineno ofs rest (ci + 1) (bi + utf8Len c) code between

/-- Events of one ordinary line of `dollar_split_tags_iter`. -/
def scanInline (lineno ofs : Nat) (line : List Char) : List SplitTagPosition :=
  scanInlineGo lineno ofs line 0 0 false false

/-- One ordinary line including the end-of-line repair: an odd event count
appends a synthetic `End` with empty delimiter text at column
`char-count + 1` — and, as in the source, byte offset `line_content.len()`
(the line's own length, not a document offset). -/
def scanLine (lineno ofs : Nat) (line : List Char) : List SplitTagPosition :=
  let v := scanInline lineno ofs line
  if v.length % 2 = 1 then
    v ++ [{ lico := ⟨lineno, line.length + 1⟩, byte_offset := byteLen line,
            which := .End [] }]
  else v

/-- Scanner state across lines: the code-fence, `<pre>` and dollar-block
flags of `dollar_split_tags_iter`. -/
structure ScanSt where
  code : Bool
  pre : Bool
  dollar : Bool
deriving DecidableEq, Repr

/-- Processing of a single line of `dollar_split_tags_iter`: the `<pre`,
`</pre>`, fence and `$$` cases in source order, falling through to the
character scan. -/
def lineStep (st : ScanSt) (lineno ofs : Nat) (line : List Char) :
    List SplitTagPosition × ScanSt :=
  if (strL "<pre").isPrefixOf line then ([], { st with pre := true })
  else if (strL "</pre>").isPrefixOf line then ([], { st with pre := false })
  else if st.pre then ([], st)
  else
    let code := if (strL "```").isPrefixOf line then !st.code else st.code
    if code then ([], { st with code := code })
    else if (strL "$$").isPrefixOf line then
      let dollar := !st.dollar
      ([{ lico := ⟨lineno, 1⟩, byte_offset := ofs,
          which := if dollar then .Start (strL "$$") else .End (strL "$$") }],
       { st with code := code, dollar := dollar })
    else (scanLine lineno ofs line, { st with code := code })

/-- The line fold of `dollar_split_tags_iter`; the byte-offset accumulator
advances by `chars().count() + 1` per line, exactly as the source's `scan`
state does. -/
def scanLinesGo (st : ScanSt) (lineno ofs : Nat) :
    List (List Char) → List SplitTagPosition
  | [] => []
  | line :: rest =>
    let p := lineStep st lineno ofs line
    p.1 ++ scanLinesGo p.2 (lineno + 1) (ofs + line.length + 1) rest

/-- `preprocess/mod.rs` `dollar_split_tags_iter`. -/
def dollar_split_tags_iter (source : List Char) : List SplitTagPosition :=
  scanLinesGo ⟨false, false, false⟩ 0 0 (rustLines source)

example : dollar_split_tags_iter (strL "a b c") = [] := by decide

example :
    (dollar_split_tags_iter (strL "a $b$ c")).map
      (fun e => (e.lico.lineno, e.lico.column, e.which.str)) =
    [(0, 2, strL "$"), (0, 4, strL "$")] := by decide

example :
    (dollar_split_tags_iter (strL "a $b c")).map
      (fun e => (e.lico.lineno, e.lico.column, e.which.str)) =
    [(0, 2, strL "$"), (0, 7, [])] := by decide

example :
    (dollar_split_tags_iter (strL "\n$$\n\\epsilon\n$$\n")).map
      (fun e => (e.lico.lineno, e.lico.column, e.which.str)) =
    [(1, 1, strL "$$"), (3, 1, strL "$$")] := by decide

example :
    (dollar_split_tags_iter (strL "\n$a\n<pre>\n\\epsilon\n</pre>\n$4\n")).map
      (fun e => (e.lico.lineno, e.lico.column, e.which.str)) =
    [(1, 0, strL "$"), (1, 3, []), (5, 0, strL "$"), (5, 3, [])] := by decide

example : dollar_split_tags_iter (strL "\n```bash\n$ foo $ $$ $?\n```\n") = [] := by
  decide

example :
    (dollar_split_tags_iter (strL "foo $$_$$ bar")).map
      (fun e => (e.lico.lineno, e.lico.column, e.which.str)) =
    [(0, 4, strL "$"), (0, 5, strL "$"), (0, 7, strL "$"), (0, 8, strL "$")] := by
  decide

/-- `preprocess/mod.rs` `Content` as constructed by the segmenter: a borrowed
slice plus its byte range, positions and delimiter. (`end` is spelled
`stop`.) -/
structure ContentM where
  s : List Char
  start : LiCo
  stop : LiCo
  byte_range : Nat × Nat
  delimiter : Dollar
deriving DecidableEq, Repr

/-- `preprocess/mod.rs` `Tagged`. -/
inductive Tagged where
  | Replace (c : ContentM)
  | Keep (c : ContentM)
deriving DecidableEq, Repr

/-- `Tagged::as_ref` / `Into<Content>`. -/
def Tagged.content : Tagged → ContentM
  | .Replace c => c
  | .Keep c => c

/-- Byte range of a window pair in `iter_over_dollar_encompassed_blocks`:
even indices are Replace spans including both delimiters, odd indices are
Keep spans excluding the start delimiter unless it sits at offset 0. -/
def segPairRange (idx : Nat) (s e : SplitTagPosition) : Nat × Nat :=
  if idx % 2 = 0 then
    (s.byte_offset, e.byte_offset + byteLen e.which.str)
  else
    let skip := if s.byte_offset = 0 then 0 else byteLen s.which.str
    (s.byte_offset + skip, e.byte_offset)

/-- Adjacent pairs, the semantics of `Itertools::tuple_windows` for pairs. -/
def tupleWindows (l : List SplitTagPosition) : List (SplitTagPosition × SplitTagPosition) :=
  l.zip l.tail

/-- The enumerated map over window pairs in
`iter_over_dollar_encompassed_blocks`; slicing failure (a Rust panic)
yields `none`. -/
def segPairs (source : List Char) : Nat → List (SplitTagPosition × SplitTagPosition) → Option (List Tagged)
  | _, [] => some []
  | idx, (s, e) :: rest =>
    let r := segPairRange idx s e
    match byteSlice source r.1 r.2 with
    | none => none
    | some sl =>
      match segPairs source (idx + 1) rest with
      | none => none
      | some tl =>
        let content : ContentM :=
          { s := sl, start := s.lico, stop := e.lico, byte_range := r, delimiter := s.which }
        some ((if idx % 2 = 0 then Tagged.Replace content else Tagged.Keep content) :: tl)

/-- `preprocess/mod.rs` `iter_over_dollar_encompassed_blocks`: an optional
leading Keep span for text before the first event, then the window pairs. -/
def iter_over_dollar_encompassed_blocks (source : List Char)
    (iter : List SplitTagPosition) : Option (List Tagged) :=
  let pre : Option (List Tagged) :=
    match iter with
    | nxt :: _ =>
      if nxt.byte_offset > 0 then
        match byteSlice source 0 nxt.byte_offset with
        | none => none
        | some sl =>
          some [Tagged.Keep { s := sl, start := ⟨0, 0⟩, stop := nxt.lico,
                              byte_range := (0, nxt.byte_offset), delimiter := .Empty }]
      else some []
    | [] => some []
  match pre with
  | none => none
  | some preL =>
    match segPairs source 0 (tupleWindows iter) with
    | none => none
    | some rest => some (preL ++ rest)

/-- Spans restricted to role and byte range, for compact checks. -/
def spanShape (t : Tagged) : Bool × Nat × Nat :=
  match t with
  | .Replace c => (false, c.byte_range)
  | .Keep c => (true, c.byte_range)

example :
    (iter_over_dollar_encompassed_blocks (strL "x: $1$")
        (dollar_split_tags_iter (strL "x: $1$"))).map (List.map spanShape) =
      some [(true, 0, 3), (false, 3, 6)] := by decide

example :
    (iter_over_dollar_encompassed_blocks (strL "x:$1$y:$2$")
        (dollar_split_tags_iter (strL "x:$1$y:$2$"))).map (List.map spanShape) =
      some [(true, 0, 2), (false, 2, 5), (true, 5, 7), (false, 7, 10)] := by decide

example :
    (iter_over_dollar_encompassed_blocks (strL "$1$ $2$ $3$")
        (dollar_split_tags_iter (strL "$1$ $2$ $3$"))).map (List.map spanShape) =
      some [(false, 0, 3), (true, 3, 4), (false, 4, 7), (true, 7, 8), (false, 8, 11)] := by
  decide

example :
    (iter_over_dollar_encompassed_blocks (strL "$$\n1\n$$")
        (dollar_split_tags_iter (strL "$$\n1\n$$"))).map (List.map spanShape) =
      some [(false, 0, 7)] := by decide

example :
    (iter_over_dollar_encompassed_blocks (strL "Hello, there is a block\n$$\n1\n$$")
        (dollar_split_tags_iter (strL "Hello, there is a block\n$$\n1\n$$"))).map
        (List.map spanShape) =
      some [(true, 0, 24), (false, 24, 31)] := by decide

/-- C1: the Keep/Replace spans are claimed to partition `[0, len)` losslessly
for every input.  The code refutes this: an input without any delimiter
produces no span at all (the whole document is uncovered), and text after
the final boundary event is never emitted — for `"x: $1$ y"` the spans
cover only `[0, 6)` of the 8-byte document.  The repository's own
`sequester::nope` test lists a full-document Keep span as the expected
output, so the intent matches the claim and the code drops the tail. -/
theorem c1_partition_lost :
    iter_over_dollar_encompassed_blocks (strL "ab")
        (dollar_split_tags_iter (strL "ab")) = some []
    ∧ (strL "ab").length = 2
    ∧ (iter_over_dollar_encompassed_blocks (strL "x: $1$ y")
        (dollar_split_tags_iter (strL "x: $1$ y"))).map (List.map spanShape) =
        some [(true, 0, 3), (false, 3, 6)]
    ∧ (strL "x: $1$ y").length = 8 := by
  refine ⟨by decide, by decide, by decide, by decide⟩

/-- C4: boundary events are claimed to be emitted in strictly increasing
byte-offset order.  The synthetic end-of-line event is constructed with
`byte_offset: line_content.len()` — the line's own length instead of a
document offset — so on `"ab\n$x"` the event stream carries byte offsets
`[3, 2]`, which is not increasing. -/
theorem c4_not_increasing :
    (dollar_split_tags_iter (strL "ab\n$x")).map (fun e => e.byte_offset) = [3, 2]
    ∧ ¬ List.Chain' (· < ·)
        ((dollar_split_tags_iter (strL "ab\n$x")).map (fun e => e.byte_offset)) := by
  have h : (dollar_split_tags_iter (strL "ab\n$x")).map (fun e => e.byte_offset) = [3, 2] := by
    decide
  refine ⟨h, ?_⟩
  rw [h]
  intro hc
  rcases List.chain'_cons.mp hc with ⟨hlt, -⟩
  omega

/-- C6: a dollar inside a fenced code block or a `<pre>` block never produces
a boundary event.  First conjunct: any line processed while the `<pre>` flag
is set emits nothing.  Second conjunct: any line that is not a `<pre`/`</pre>`
tag line and whose post-toggle fence flag is set emits nothing.  Third
conjunct: the spec's example input yields no span at all, in particular zero
Replace spans. -/
theorem c6_fence_pre_suppression :
    (∀ st : ScanSt, ∀ lineno ofs : Nat, ∀ line : List Char,
      st.pre = true → (lineStep st lineno ofs line).1 = [])
    ∧ (∀ st : ScanSt, ∀ lineno ofs : Nat, ∀ line : List Char,
      (strL "<pre").isPrefixOf line = false →
      (strL "</pre>").isPrefixOf line = false →
      (if (strL "```").isPrefixOf line then !st.code else st.code) = true →
      (lineStep st lineno ofs line).1 = [])
    ∧ iter_over_dollar_encompassed_blocks (strL "```\n$ foo $ $$ $?\n```\n")
        (dollar_split_tags_iter (strL "```\n$ foo $ $$ $?\n```\n")) = some [] := by
  refine ⟨?_, ?_, by decide⟩
  · intro st lineno ofs line h
    simp only [lineStep, h]
    split
    · rfl
    · split
      · rfl
      · simp
  · intro st lineno ofs line h1 h2 h3
    by_cases hf : (strL "```").isPrefixOf line = true
    · rw [if_pos hf] at h3
      cases hp : st.pre <;> simp [lineStep, h1, h2, hf, hp, h3]
    · rw [if_neg hf] at h3
      cases hp : st.pre <;> simp [lineStep, h1, h2, hf, hp, h3]

/-- Witness for C6 at concrete inputs: a dollar-bearing line inside a `<pre>`
block and one inside a code fence both emit no event. -/
theorem c6_fence_pre_suppression_witness :
    (lineStep ⟨false, true, false⟩ 3 10 (strL "$x$")).1 = []
    ∧ (lineStep ⟨true, false, false⟩ 4 20 (strL "$ foo $")).1 = [] :=
  ⟨c6_fence_pre_suppression.1 ⟨false, true, false⟩ 3 10 (strL "$x$") rfl,
   c6_fence_pre_suppression.2.1 ⟨true, false, false⟩ 4 20 (strL "$ foo $")
     (by decide) (by decide) (by decide)⟩

/-- C7: a line whose character scan yields an odd number of single-dollar
events gets exactly one synthetic `End` event with empty delimiter text at
column `char-count + 1` (one past the last character, columns counted from
one), so every line contributes an even number of inline events. -/
theorem c7_odd_count_repair :
    (∀ lineno ofs : Nat, ∀ line : List Char,
      (scanInline lineno ofs line).length % 2 = 1 →
      scanLine lineno ofs line =
        scanInline lineno ofs line ++
          [{ lico := ⟨lineno, line.length + 1⟩, byte_offset := byteLen line,
             which := .End [] }])
    ∧ (∀ lineno ofs : Nat, ∀ line : List Char,
      (scanLine lineno ofs line).length % 2 = 0) := by
  constructor
  · intro lineno ofs line h
    simp [scanLine, h]
  · intro lineno ofs line
    by_cases h : (scanInline lineno ofs line).length % 2 = 1
    · simp only [scanLine, h, if_true, List.length_append, List.length_singleton]
      omega
    · simp only [scanLine, h, if_false]
      omega

/-- Witness for C7: the spec's example line `"a $b c"` has one dollar event
and receives the synthetic `End` at column 7. -/
theorem c7_odd_count_repair_witness :
    scanLine 0 0 (strL "a $b c") =
      scanInline 0 0 (strL "a $b c") ++
        [{ lico := ⟨0, 7⟩, byte_offset := 6, which := .End [] }] := by
  have h := c7_odd_count_repair.1 0 0 (strL "a $b c") (by decide)
  simpa using h

/-- `types.rs` `Content`: the variant with separate start/end delimiters
consumed by `Trimmed::from`. (`end` is spelled `stop`.) -/
structure ContentT where
  s : List Char
  start : LiCo
  stop : LiCo
  byte_range : Nat × Nat
  start_del : Dollar
  end_del : Dollar
deriving DecidableEq, Repr

/-- `types.rs` `Trimmed`. -/
structure Trimmed where
  trimmed : List Char
  parameters : Option (List Char)
  start : LiCo
  stop : LiCo
  byte_range : Nat × Nat
deriving DecidableEq, Repr

/-- The cursor step of `types.rs` `annotate`: a newline starts the next
line at column one, any other character advances the column. -/
def stepCur (cur : LiCo) (c : Char) : LiCo :=
  if c = '\n' then ⟨cur.lineno + 1, 1⟩ else ⟨cur.lineno, cur.column + 1⟩

/-- The scan inside `types.rs` `annotate`, pairing every character with the
updated cursor and its byte offset. -/
def annotateGo (cur : LiCo) (ofs : Nat) : List Char → List (LiCo × Nat × Char)
  | [] => []
  | c :: rest => (stepCur cur c, ofs, c) :: annotateGo (stepCur cur c) (ofs + utf8Len c) rest

/-- `types.rs` `annotate`. -/
def annotate (s : List Char) : List (LiCo × Nat × Char) := annotateGo ⟨1, 0⟩ 0 s

/-- Strict order of the derived Rust `Ord` on `(LiCo, usize, char)` triples,
used by the `if end < start` comparison in `Trimmed::from`. -/
def tripLt (a b : LiCo × Nat × Char) : Bool :=
  licoLt a.1 b.1 ||
    (a.1 == b.1 &&
      (Nat.blt a.2.1 b.2.1 || (Nat.beq a.2.1 b.2.1 && Nat.blt a.2.2.toNat b.2.2.toNat)))

/-- The double-ended `rfind` of `Trimmed::from`'s block branch: the element
satisfying the predicate that is closest to the back, together with the list
of elements in front of it (so `before.getLast?` is what `next_back` yields
after the `rfind`). -/
def rfindSplit (p : (LiCo × Nat × Char) → Bool) :
    List (LiCo × Nat × Char) → Option (List (LiCo × Nat × Char) × (LiCo × Nat × Char))
  | [] => none
  | c :: rest =>
    match rfindSplit p rest with
    | some (xs, y) => some (c :: xs, y)
    | none => if p c then some ([], c) else none

/-- `types.rs` `Trimmed::from` (`Content::trimmed`).  Panics — the
`unwrap` of a missing first newline, `assert!`/`debug_assert!` failures,
out-of-bounds slices and the `unreachable!` arm — are modelled as `none`. -/
def trimmedFrom (content : ContentT) : Option Trimmed :=
  if content.start_del.str ≠ content.end_del.str then none
  else if content.start_del.str = strL "$$" then
    if licoLe content.start content.stop = false then none
    else
      let v := annotate content.s
      match v.find? (fun e => e.2.2 == '\n') with
      | none => none
      | some startE =>
        let endE :=
          match rfindSplit (fun e => e.2.2 == '\n') v with
          | some (before, one_after) =>
            let e0 := before.getLast?.getD one_after
            let e1 : LiCo × Nat × Char := (e0.1, one_after.2.1, e0.2.2)
            if tripLt e1 startE then startE else e1
          | none => startE
        match byteSlice content.s 0 startE.2.1 with
        | none => none
        | some first_line =>
          match byteSlice first_line 0 2 with
          | none => none
          | some fl2 =>
            if fl2 ≠ strL "$$" then none
            else if startE.2.1 < 2 then none
            else
              match byteSlice content.s 2 startE.2.1 with
              | none => none
              | some params =>
                match byteSlice content.s startE.2.1 endE.2.1 with
                | none => none
                | some t =>
                  some { trimmed := t,
                         parameters := if params = [] then none else some params,
                         start := startE.1, stop := endE.1,
                         byte_range := (startE.2.1, endE.2.1) }
  else if content.start_del.str = strL "$" then
    if licoLe content.start content.stop = false then none
    else
      let v := annotate content.s
      match v.get? 1 with
      | none => none
      | some startE =>
        let n := v.length
        let last := v.getD (n - 1) startE
        let second_to_last := if 4 ≤ n then v.getD (n - 2) last else last
        match byteSlice content.s 0 1 with
        | none => none
        | some d1 =>
          if d1 ≠ strL "$" then none
          else
            match byteSlice content.s startE.2.1 last.2.1 with
            | none => none
            | some t =>
              some { trimmed := t, parameters := none,
                     start := startE.1, stop := second_to_last.1,
                     byte_range := (startE.2.1, last.2.1) }
  else none

/-- A block Replace span as the segmenter hands it to trimming: delimiter
texts `$$`, span text `"$$" ++ params ++ "\n" ++ body ++ "\n$$"`. -/
def mkBlockContent (params body : List Char) : ContentT :=
  { s := strL "$$" ++ params ++ '\n' :: (body ++ '\n' :: strL "$$"),
    start := ⟨0, 0⟩, stop := ⟨0, 0⟩,
    byte_range := (0, byteLen (strL "$$" ++ params ++ '\n' :: (body ++ '\n' :: strL "$$"))),
    start_del := .Start (strL "$$"), end_del := .End (strL "$$") }

example : (mkBlockContent (strL "title") (strL "body line")).s =
    strL "$$title\nbody line\n$$" := by decide

example :
    (trimmedFrom (mkBlockContent (strL "title") (strL "body line"))).map
      (fun t => (t.trimmed, t.parameters)) =
    some (strL "\nbody line", some (strL "title")) := by decide

example :
    (trimmedFrom (mkBlockContent [] [])).map (fun t => (t.trimmed, t.parameters)) =
    some (strL "\n", none) := by decide

example :
    trimmedFrom { s := strL "$$\n$$", start := ⟨0, 0⟩, stop := ⟨1, 1⟩,
                  byte_range := (0, 5), start_del := .Start (strL "$$"),
                  end_del := .End (strL "$$") } =
    some { trimmed := [], parameters := none, start := ⟨2, 1⟩, stop := ⟨2, 1⟩,
           byte_range := (2, 2) } := by decide

theorem annotateGo_cons (cur : LiCo) (ofs : Nat) (c : Char) (rest : List Char) :
    annotateGo cur ofs (c :: rest) =
      (stepCur cur c, ofs, c) :: annotateGo (stepCur cur c) (ofs + utf8Len c) rest := rfl

theorem mem_annotateGo_char (cur : LiCo) (ofs : Nat) (l : List Char) :
    ∀ e ∈ annotateGo cur ofs l, e.2.2 ∈ l := by
  induction l generalizing cur ofs with
  | nil => intro e he; cases he
  | cons c rest ih =>
    intro e he
    rw [annotateGo_cons] at he
    rcases List.mem_cons.mp he with h | h
    · subst h; exact List.mem_cons_self _ _
    · exact List.mem_cons_of_mem _ (ih _ _ _ h)

theorem find_nl_annotateGo_none (cur : LiCo) (ofs : Nat) (l : List Char)
    (h : '\n' ∉ l) :
    (annotateGo cur ofs l).find? (fun e => e.2.2 == '\n') = none := by
  rw [List.find?_eq_none]
  intro e he hc
  have := mem_annotateGo_char cur ofs l e he
  rw [beq_iff_eq] at hc
  exact h (hc ▸ this)

/-- C9: `Trimmed::from` is partial on block spans — on any `Content` whose
(double-dollar) delimiter text is `$$` and whose text contains no newline,
the search for the first newline comes back empty and the `unwrap` panics,
so no `Trimmed` value is returned (modelled as `none`); trimming a block
span can only succeed when the text has at least one newline. -/
theorem c9_block_trim_partial (c : ContentT)
    (h1 : c.start_del.str = strL "$$") (h2 : '\n' ∉ c.s) :
    trimmedFrom c = none := by
  unfold trimmedFrom
  by_cases hne : c.start_del.str ≠ c.end_del.str
  · rw [if_pos hne]
  · rw [if_neg hne, if_pos h1]
    by_cases hle : licoLe c.start c.stop = false
    · rw [if_pos hle]
    · rw [if_neg hle]
      have hf : (annotate c.s).find? (fun e => e.2.2 == '\n') = none :=
        find_nl_annotateGo_none _ _ _ h2
      simp only [annotate] at hf
      simp only [annotate, hf]

/-- Witness for C9: the newline-free block span text `"$$x$$"` makes
trimming panic. -/
theorem c9_block_trim_partial_witness :
    trimmedFrom { s := strL "$$x$$", start := ⟨0, 0⟩, stop := ⟨0, 1⟩,
                  byte_range := (0, 5), start_del := .Start (strL "$$"),
                  end_del := .End (strL "$$") } = none :=
  c9_block_trim_partial _ (by decide) (by decide)

/-- C3 counterexample: trimming the block span `"$$title\nbody line\n$$"`
does give `parameters = "title"`, but the body is `"\nbody line"` — the
opening line's terminating newline is kept and the closing one is not — so
the claimed body `"body line\n"` is wrong. -/
theorem c3_trim_counterexample :
    (mkBlockContent (strL "title") (strL "body line")).s =
      strL "$$title\nbody line\n$$"
    ∧ (trimmedFrom (mkBlockContent (strL "title") (strL "body line"))).map
        (fun t => t.parameters) = some (some (strL "title"))
    ∧ (trimmedFrom (mkBlockContent (strL "title") (strL "body line"))).map
        (fun t => t.trimmed) ≠ some (strL "body line\n") := by
  refine ⟨by decide, by decide, by decide⟩

theorem utf8Len_pos (c : Char) : 1 ≤ utf8Len c := by
  unfold utf8Len
  split
  · omega
  · split
    · omega
    · split <;> omega

theorem byteLen_nil : byteLen [] = 0 := rfl

theorem byteLen_cons (c : Char) (l : List Char) :
    byteLen (c :: l) = utf8Len c + byteLen l := by
  simp [byteLen]

theorem byteLen_append (xs ys : List Char) :
    byteLen (xs ++ ys) = byteLen xs + byteLen ys := by
  simp [byteLen]

theorem byteSplitAt_left (xs ys : List Char) :
    byteSplitAt (byteLen xs) (xs ++ ys) = some (xs, ys) := by
  induction xs with
  | nil => rw [byteLen_nil]; cases ys <;> rfl
  | cons c rest ih =>
    have hpos := utf8Len_pos c
    obtain ⟨k, hk⟩ : ∃ k, byteLen (c :: rest) = k + 1 := ⟨byteLen (c :: rest) - 1, by
      rw [byteLen_cons]; omega⟩
    rw [hk]
    show byteSplitAt (k + 1) (c :: (rest ++ ys)) = _
    rw [byteSplitAt]
    rw [if_pos (by rw [byteLen_cons] at hk; omega)]
    have hsub : k + 1 - utf8Len c = byteLen rest := by rw [byteLen_cons] at hk; omega
    rw [hsub, ih]

theorem byteSlice_mid (xs ys zs : List Char) :
    byteSlice (xs ++ (ys ++ zs)) (byteLen xs) (byteLen xs + byteLen ys) =
      some ys := by
  unfold byteSlice
  rw [if_pos (by omega)]
  rw [byteSplitAt_left]
  dsimp only
  have h2 : byteLen xs + byteLen ys - byteLen xs = byteLen ys := by omega
  rw [h2, byteSplitAt_left]

theorem byteSlice_prefix (xs ys : List Char) :
    byteSlice (xs ++ ys) 0 (byteLen xs) = some xs := by
  have := byteSlice_mid [] xs ys
  simpa [byteLen_nil] using this

theorem rfindSplit_eq_none (p : (LiCo × Nat × Char) → Bool)
    (l : List (LiCo × Nat × Char)) (h : ∀ e ∈ l, p e = false) :
    rfindSplit p l = none := by
  induction l with
  | nil => rfl
  | cons c rest ih =>
    rw [rfindSplit, ih (fun e he => h e (List.mem_cons_of_mem _ he))]
    rw [h c (List.mem_cons_self _ _)]
    rfl

theorem rfindSplit_append_last (p : (LiCo × Nat × Char) → Bool)
    (ys : List (LiCo × Nat × Char)) (z : LiCo × Nat × Char)
    (zs : List (LiCo × Nat × Char)) (hz : p z = true)
    (hzs : ∀ e ∈ zs, p e = false) :
    rfindSplit p (ys ++ z :: zs) = some (ys, z) := by
  induction ys with
  | nil =>
    show rfindSplit p (z :: zs) = _
    rw [rfindSplit, rfindSplit_eq_none p zs hzs, hz]
    rfl
  | cons c rest ih =>
    show rfindSplit p (c :: (rest ++ z :: zs)) = _
    rw [rfindSplit, ih]

theorem annotateGo_append (cur : LiCo) (ofs : Nat) (xs ys : List Char) :
    annotateGo cur ofs (xs ++ ys) =
      annotateGo cur ofs xs ++
        annotateGo (xs.foldl stepCur cur) (ofs + byteLen xs) ys := by
  induction xs generalizing cur ofs with
  | nil => simp [annotateGo, byteLen_nil]
  | cons c rest ih =>
    rw [List.cons_append, annotateGo_cons, annotateGo_cons, ih, byteLen_cons]
    simp [List.foldl_cons, Nat.add_assoc]

theorem licoLt_iff (a b : LiCo) :
    licoLt a b = true ↔
      a.lineno < b.lineno ∨ (a.lineno = b.lineno ∧ a.column < b.column) := by
  simp [licoLt]

theorem licoLt_trans (a b c : LiCo) (h1 : licoLt a b = true)
    (h2 : licoLt b c = true) : licoLt a c = true := by
  rw [licoLt_iff] at *
  omega

theorem stepCur_licoLt (cur : LiCo) (c : Char) :
    licoLt cur (stepCur cur c) = true := by
  rw [licoLt_iff]
  unfold stepCur
  split
  · exact Or.inl (Nat.lt_succ_self _)
  · exact Or.inr ⟨rfl, Nat.lt_succ_self _⟩

theorem mem_annotateGo_licoLt (cur : LiCo) (ofs : Nat) (l : List Char) :
    ∀ e ∈ annotateGo cur ofs l, licoLt cur e.1 = true := by
  induction l generalizing cur ofs with
  | nil => intro e he; cases he
  | cons c rest ih =>
    intro e he
    rw [annotateGo_cons] at he
    rcases List.mem_cons.mp he with h | h
    · subst h; exact stepCur_licoLt cur c
    · exact licoLt_trans _ _ _ (stepCur_licoLt cur c) (ih _ _ _ h)

theorem tripLt_false_of_ge (a b : LiCo × Nat × Char)
    (h : licoLt b.1 a.1 = true ∨ (a.1 = b.1 ∧ b.2.1 < a.2.1)) :
    tripLt a b = false := by
  rw [Bool.eq_false_iff]
  intro hc
  simp only [tripLt, Bool.or_eq_true, Bool.and_eq_true, beq_iff_eq,
    Nat.blt_eq, Nat.beq_eq] at hc
  rcases h with h | ⟨he, hb⟩
  · rw [licoLt_iff] at h
    rcases hc with hc | ⟨hc1, _⟩
    · rw [licoLt_iff] at hc
      omega
    · rw [hc1] at h
      omega
  · rcases hc with hc | ⟨_, hc⟩
    · rw [he] at hc
      rw [licoLt_iff] at hc
      omega
    · omega

/-- C3 (amended): for a double-delimiter span
`"$$" ++ params ++ "\n" ++ body ++ "\n$$"` with no newline in the parameter
text, trimming yields `parameters` = the text after the opening `$$` up to
the first newline (absent when empty), and the body runs from the first
newline inclusive to the newline preceding the closing delimiter line
exclusive, i.e. `"\n" ++ body`; in particular `"$$title\nbody line\n$$"`
trims to parameters `"title"` and body `"\nbody line"`. -/
theorem c3_trim_amended (params body : List Char) (hp : '\n' ∉ params) :
    ∃ t : Trimmed,
      trimmedFrom (mkBlockContent params body) = some t ∧
      t.trimmed = '\n' :: body ∧
      t.parameters = (if params = [] then none else some params) := by
  have hheadnl : '\n' ∉ strL "$$" ++ params := by
    intro hmem
    rcases List.mem_append.mp hmem with h | h
    · exact absurd h (by decide)
    · exact hp h
  have hnl1 : utf8Len '\n' = 1 := by decide
  have hs : (mkBlockContent params body).s =
      (strL "$$" ++ params) ++ ('\n' :: (body ++ '\n' :: strL "$$")) := by
    simp [mkBlockContent]
  have hinner : annotateGo ((strL "$$" ++ params).foldl stepCur ⟨1, 0⟩)
        (byteLen (strL "$$" ++ params)) ('\n' :: (body ++ '\n' :: strL "$$")) =
      (stepCur ((strL "$$" ++ params).foldl stepCur ⟨1, 0⟩) '\n',
        byteLen (strL "$$" ++ params), '\n') ::
        (annotateGo (stepCur ((strL "$$" ++ params).foldl stepCur ⟨1, 0⟩) '\n')
            (byteLen (strL "$$" ++ params) + 1) body ++
          (stepCur (body.foldl stepCur
              (stepCur ((strL "$$" ++ params).foldl stepCur ⟨1, 0⟩) '\n')) '\n',
            byteLen (strL "$$" ++ params) + 1 + byteLen body, '\n') ::
            annotateGo (stepCur (body.foldl stepCur
                (stepCur ((strL "$$" ++ params).foldl stepCur ⟨1, 0⟩) '\n')) '\n')
              (byteLen (strL "$$" ++ params) + 1 + byteLen body + 1) (strL "$$")) := by
    rw [annotateGo_cons, annotateGo_append, annotateGo_cons]
    simp only [hnl1]
  have hv : annotate ((strL "$$" ++ params) ++ ('\n' :: (body ++ '\n' :: strL "$$"))) =
      annotateGo ⟨1, 0⟩ 0 (strL "$$" ++ params) ++
        (stepCur ((strL "$$" ++ params).foldl stepCur ⟨1, 0⟩) '\n',
          byteLen (strL "$$" ++ params), '\n') ::
          (annotateGo (stepCur ((strL "$$" ++ params).foldl stepCur ⟨1, 0⟩) '\n')
              (byteLen (strL "$$" ++ params) + 1) body ++
            (stepCur (body.foldl stepCur
                (stepCur ((strL "$$" ++ params).foldl stepCur ⟨1, 0⟩) '\n')) '\n',
              byteLen (strL "$$" ++ params) + 1 + byteLen body, '\n') ::
              annotateGo (stepCur (body.foldl stepCur
                  (stepCur ((strL "$$" ++ params).foldl stepCur ⟨1, 0⟩) '\n')) '\n')
                (byteLen (strL "$$" ++ params) + 1 + byteLen body + 1) (strL "$$")) := by
    show annotateGo ⟨1, 0⟩ 0 ((strL "$$" ++ params) ++ ('\n' :: (body ++ '\n' :: strL "$$"))) = _
    rw [annotateGo_append, Nat.zero_add, hinner]
  have hfind :
      (annotate ((strL "$$" ++ params) ++ ('\n' :: (body ++ '\n' :: strL "$$")))).find?
          (fun e => e.2.2 == '\n') =
        some (stepCur ((strL "$$" ++ params).foldl stepCur ⟨1, 0⟩) '\n',
          byteLen (strL "$$" ++ params), '\n') := by
    rw [hv, List.find?_append, find_nl_annotateGo_none _ _ _ hheadnl, Option.none_or,
      List.find?_cons_of_pos _ rfl]
  have hrfind :
      rfindSplit (fun e => e.2.2 == '\n')
          (annotate ((strL "$$" ++ params) ++ ('\n' :: (body ++ '\n' :: strL "$$")))) =
        some (annotateGo ⟨1, 0⟩ 0 (strL "$$" ++ params) ++
            (stepCur ((strL "$$" ++ params).foldl stepCur ⟨1, 0⟩) '\n',
              byteLen (strL "$$" ++ params), '\n') ::
              annotateGo (stepCur ((strL "$$" ++ params).foldl stepCur ⟨1, 0⟩) '\n')
                (byteLen (strL "$$" ++ params) + 1) body,
          (stepCur (body.foldl stepCur
              (stepCur ((strL "$$" ++ params).foldl stepCur ⟨1, 0⟩) '\n')) '\n',
            byteLen (strL "$$" ++ params) + 1 + byteLen body, '\n')) := by
    rw [hv]
    rw [show ∀ (A B nl2D : List (LiCo × Nat × Char)) (e : LiCo × Nat × Char),
        A ++ e :: (B ++ nl2D) = (A ++ e :: B) ++ nl2D from by intros; simp]
    exact rfindSplit_append_last _ _ _ _ rfl
      (fun e he => by
        have hchar := mem_annotateGo_char _ _ _ e he
        rw [Bool.eq_false_iff]
        intro hcontra
        rw [beq_iff_eq] at hcontra
        rw [hcontra] at hchar
        exact absurd hchar (by decide))
  have hpfx2 : byteLen (strL "$$") = 2 := by decide
  have hparams2 :
      byteSlice ((strL "$$" ++ params) ++ ('\n' :: (body ++ '\n' :: strL "$$"))) 2
          (byteLen (strL "$$" ++ params)) = some params := by
    have h := byteSlice_mid (strL "$$") params ('\n' :: (body ++ '\n' :: strL "$$"))
    rw [hpfx2] at h
    rw [byteLen_append, hpfx2]
    rw [← List.append_assoc] at h
    exact h
  have hfl : byteSlice ((strL "$$" ++ params) ++ ('\n' :: (body ++ '\n' :: strL "$$"))) 0
      (byteLen (strL "$$" ++ params)) = some (strL "$$" ++ params) :=
    byteSlice_prefix _ _
  have hfl2 : byteSlice (strL "$$" ++ params) 0 2 = some (strL "$$") := by
    have h := byteSlice_prefix (strL "$$") params
    rwa [hpfx2] at h
  have htrim :
      byteSlice ((strL "$$" ++ params) ++ ('\n' :: (body ++ '\n' :: strL "$$")))
          (byteLen (strL "$$" ++ params))
          (byteLen (strL "$$" ++ params) + 1 + byteLen body) = some ('\n' :: body) := by
    have h := byteSlice_mid (strL "$$" ++ params) ('\n' :: body) ('\n' :: strL "$$")
    rw [byteLen_cons, hnl1, List.cons_append, ← Nat.add_assoc] at h
    exact h
  have hge2 : ¬ (byteLen (strL "$$" ++ params) < 2) := by
    rw [byteLen_append, hpfx2]
    omega
  rcases (annotateGo (stepCur ((strL "$$" ++ params).foldl stepCur ⟨1, 0⟩) '\n')
      (byteLen (strL "$$" ++ params) + 1) body).eq_nil_or_concat' with hB | ⟨B', lb, hB⟩
  · have hmain : trimmedFrom (mkBlockContent params body) =
        some { trimmed := '\n' :: body,
               parameters := if params = [] then none else some params,
               start := stepCur ((strL "$$" ++ params).foldl stepCur ⟨1, 0⟩) '\n',
               stop := stepCur ((strL "$$" ++ params).foldl stepCur ⟨1, 0⟩) '\n',
               byte_range := (byteLen (strL "$$" ++ params),
                 byteLen (strL "$$" ++ params) + 1 + byteLen body) } := by
      have htrip : tripLt
          (stepCur ((strL "$$" ++ params).foldl stepCur ⟨1, 0⟩) '\n',
            byteLen (strL "$$" ++ params) + 1 + byteLen body, '\n')
          (stepCur ((strL "$$" ++ params).foldl stepCur ⟨1, 0⟩) '\n',
            byteLen (strL "$$" ++ params), '\n') = false :=
        tripLt_false_of_ge _ _ (Or.inr ⟨rfl, by dsimp only; omega⟩)
      unfold trimmedFrom
      rw [if_neg (show ¬ (Dollar.str (mkBlockContent params body).start_del ≠
            Dollar.str (mkBlockContent params body).end_del) from fun h => h rfl)]
      rw [if_pos (show Dollar.str (mkBlockContent params body).start_del = strL "$$" from rfl)]
      rw [if_neg (show ¬ (licoLe (mkBlockContent params body).start
            (mkBlockContent params body).stop = false) from fun h => Bool.noConfusion h)]
      rw [hs]
      simp only [hfind, hrfind, hB, List.getLast?_concat, Option.getD]
      simp only [htrip, Bool.false_eq_true, if_false]
      simp only [hfl, hfl2]
      rw [if_neg (fun h => h rfl), if_neg hge2]
      simp only [hparams2, htrim]
    exact ⟨_, hmain, rfl, rfl⟩
  · have hmem : lb ∈ annotateGo (stepCur ((strL "$$" ++ params).foldl stepCur ⟨1, 0⟩) '\n')
        (byteLen (strL "$$" ++ params) + 1) body := by
      rw [hB]
      exact List.mem_append_right _ (List.mem_singleton.mpr rfl)
    have hlt := mem_annotateGo_licoLt _ _ _ lb hmem
    have hmain : trimmedFrom (mkBlockContent params body) =
        some { trimmed := '\n' :: body,
               parameters := if params = [] then none else some params,
               start := stepCur ((strL "$$" ++ params).foldl stepCur ⟨1, 0⟩) '\n',
               stop := lb.1,
               byte_range := (byteLen (strL "$$" ++ params),
                 byteLen (strL "$$" ++ params) + 1 + byteLen body) } := by
      have htrip : tripLt
          (lb.1, byteLen (strL "$$" ++ params) + 1 + byteLen body, lb.2.2)
          (stepCur ((strL "$$" ++ params).foldl stepCur ⟨1, 0⟩) '\n',
            byteLen (strL "$$" ++ params), '\n') = false :=
        tripLt_false_of_ge _ _ (Or.inl hlt)
      unfold trimmedFrom
      rw [if_neg (show ¬ (Dollar.str (mkBlockContent params body).start_del ≠
            Dollar.str (mkBlockContent params body).end_del) from fun h => h rfl)]
      rw [if_pos (show Dollar.str (mkBlockContent params body).start_del = strL "$$" from rfl)]
      rw [if_neg (show ¬ (licoLe (mkBlockContent params body).start
            (mkBlockContent params body).stop = false) from fun h => Bool.noConfusion h)]
      rw [hs]
      simp only [hfind, hrfind, hB]
      rw [show ∀ (A B' : List (LiCo × Nat × Char)) (e f : LiCo × Nat × Char),
          A ++ e :: (B' ++ [f]) = (A ++ e :: B') ++ [f] from by intros; simp]
      simp only [List.getLast?_concat, Option.getD]
      simp only [htrip, Bool.false_eq_true, if_false]
      simp only [hfl, hfl2]
      rw [if_neg (fun h => h rfl), if_neg hge2]
      simp only [hparams2, htrim]
    exact ⟨_, hmain, rfl, rfl⟩

/-- Witness for C3 at the spec's example: block `"$$title\nbody line\n$$"`,
parameters `"title"`, body `"\nbody line"`. -/
theorem c3_trim_amended_witness :
    ∃ t : Trimmed,
      trimmedFrom (mkBlockContent (strL "title") (strL "body line")) = some t ∧
      t.trimmed = '\n' :: strL "body line" ∧
      t.parameters = some (strL "title") := by
  obtain ⟨t, h1, h2, h3⟩ := c3_trim_amended (strL "title") (strL "body line") (by decide)
  exact ⟨t, h1, h2, by simpa using h3⟩

/-- `types.rs` `SupportedRenderer`. -/
inductive SupportedRenderer where
  | Tectonic
  | Latex
  | Markdown
  | Html
deriving DecidableEq, Repr

/-- `types.rs` `Replacement`: parsed content plus the rendered artifact
path. -/
structure Replacement where
  content : ContentM
  intermediate : Option (List Char)
  svg : List Char
deriving DecidableEq, Repr

/-- Modelled from the spec: `Replacement::intermediate()` has no body in the
embedded sources; per the formatter contract of spec section 4.5 (and
`inner_str_or_intermediate` in `types.rs`) it yields the stored intermediate
representation when present, else the raw content text. -/
def Replacement.intermediateStr (r : Replacement) : List Char :=
  r.intermediate.getD r.content.s

/-- The error variants of the directive interpreter; `FragmentFailed` stands
for any error propagated out of the external fragment renderer.  The
reference errors carry the line number taken from the span's scanner
position. -/
inductive TransformErr where
  | UnknownReferenceKind (kind : List Char) (lineno : Nat)
  | UnexpectedReferenceArgCount (count : Nat) (lineno : Nat)
  | InvalidReference (to_ : List Char) (lineno : Nat)
  | FragmentFailed
deriving DecidableEq, Repr

/-- The reference table `HashMap<String, String>` as an association list with
overwrite-on-insert semantics. -/
abbrev RefTable := List (List Char × List Char)

/-- `HashMap::insert` (last write wins). -/
def refInsert : RefTable → List Char → List Char → RefTable
  | [], k, v => [(k, v)]
  | (k', v') :: rest, k, v =>
    if k' = k then (k, v) :: rest else (k', v') :: refInsert rest k v

/-- `HashMap::get`. -/
def refFind : RefTable → List Char → Option (List Char)
  | [], _ => none
  | (k', v') :: rest, k => if k' = k then some v' else refFind rest k

theorem refFind_refInsert (t : RefTable) (k v : List Char) :
    refFind (refInsert t k v) k = some v := by
  induction t with
  | nil => simp [refInsert, refFind]
  | cons p rest ih =>
    obtain ⟨k', v'⟩ := p
    by_cases h : k' = k
    · simp [refInsert, refFind, h]
    · simp [refInsert, refFind, h, ih]

/-- Modelled from the spec: the fragment renderer collaborator
(`fragments.rs` is not among the embedded sources).  Per spec section 6 a
renderer receives the directive content and returns an artifact
(`Replacement`) or fails; `none` models any renderer failure.  The numeric
scale factor is carried in tenths (`16` for 1.6, `13` for 1.3). -/
structure FragmentEnv where
  parse_latex : ContentM → Option Replacement
  parse_gnuplot : ContentM → Option Replacement
  parse_gnuplot_only : ContentM → Option Replacement
  generate_replacement_file_from_template : ContentM → Nat → Option Replacement

/-- Rust `str::strip_prefix`. -/
def stripPre : List Char → List Char → Option (List Char)
  | [], s => some s
  | _ :: _, [] => none
  | p :: ps, c :: cs => if p = c then stripPre ps cs else none

theorem stripPre_append (p r : List Char) : stripPre p (p ++ r) = some r := by
  induction p with
  | nil => rfl
  | cons c cs ih => simp [stripPre, ih]

/-- Decimal rendering of a counter, as `format!` does. -/
def natL (n : Nat) : List Char := (Nat.repr n).data

/-- A single-quote character (kept out of string literals). -/
def quoteC : Char := Char.ofNat 39

/-- `preprocess/mod.rs` `format_figure`. -/
def format_figure (replacement : Replacement) (refer head_num : List Char)
    (figures_counter : Nat) (title : List Char)
    (renderer : SupportedRenderer) : List Char :=
  match renderer with
  | .Html | .Markdown =>
    strL "<figure id=\"" ++ refer ++ strL "\" class=\"figure\">\n                    <object data=\"assets/" ++
      replacement.svg ++ strL "\" type=\"image/svg+xml\"/></object>\n                    <figcaption>Figure " ++
      head_num ++ natL figures_counter ++ strL " " ++ title ++
      strL "</figcaption>\n                </figure>"
  | .Latex | .Tectonic => strL "\\[" ++ replacement.intermediateStr ++ strL "\\]"

/-- `preprocess/mod.rs` `format_equation_block`. -/
def format_equation_block (replacement : Replacement) (refer head_num : List Char)
    (equations_counter : Nat) (renderer : SupportedRenderer) : List Char :=
  match renderer with
  | .Html | .Markdown =>
    strL "<div id=\"" ++ refer ++ strL "\" class=\"equation\">\n                    <div class=\"equation_inner\">\n                        <object data=\"assets/" ++
      replacement.svg ++ strL "\" type=\"image/svg+xml\"></object>\n                    </div><span>(" ++
      head_num ++ natL equations_counter ++
      strL ")</span>\n                </div>"
  | .Latex | .Tectonic => strL "\\[" ++ replacement.intermediateStr ++ strL "\\]"

/-- `preprocess/mod.rs` `format_equation` (the trailing `\n` is literal
backslash-n, as in the raw string of the source). -/
def format_equation (replacement : Replacement)
    (renderer : SupportedRenderer) : List Char :=
  match renderer with
  | .Html | .Markdown =>
    strL "<div class=\"equation\"><div class=\"equation_inner\"><object data=\"assets/" ++
      replacement.svg ++ strL "\" type=\"image/svg+xml\"></object></div></div>\\n"
  | .Latex | .Tectonic => strL "\\[" ++ replacement.intermediateStr ++ strL "\\]"

/-- `preprocess/mod.rs` `format_inline_equation`. -/
def format_inline_equation (replacement : Replacement)
    (renderer : SupportedRenderer) : List Char :=
  match renderer with
  | .Html | .Markdown =>
    strL "<object class=\"equation_inline\" data=\"assets/" ++ replacement.svg ++
      strL "\" type=\"image/svg+xml\"></object>"
  | .Latex | .Tectonic => strL "$" ++ replacement.content.s ++ strL "$"

/-- The `ref:fig` anchor of `transform_block_as_needed`. -/
def figAnchor (key label : List Char) : List Char :=
  strL "<a class=\"fig_ref\" href=" ++ [quoteC, '#'] ++ key ++ [quoteC] ++ strL ">" ++
    label ++ strL "</a>"

/-- The `ref:bib` anchor of `transform_block_as_needed`. -/
def bibAnchor (key label : List Char) : List Char :=
  strL "<a class=\"bib_ref\" href=" ++ [quoteC] ++ strL "bibliography.html#" ++ key ++
    [quoteC] ++ strL ">" ++ label ++ strL "</a>"

/-- The `ref:equ` anchor of `transform_block_as_needed`. -/
def equAnchor (key label : List Char) : List Char :=
  strL "<a class=\"equ_ref\" href=" ++ [quoteC, '#'] ++ key ++ [quoteC] ++
    strL ">Eq. (" ++ label ++ strL ")</a>"

/-- The `add_object` closure of `transform_inline_as_needed`: records the
artifact, and for a titled render or a nonempty key increments the
corresponding counter (handed in by the caller) and registers the
synthesized label in the reference table. -/
def add_object (head_num : List Char) (renderer : SupportedRenderer)
    (references : RefTable) (used_fragments : List (List Char))
    (figures_counter equations_counter : Nat) (replacement : Replacement)
    (refer : List Char) (title : Option (List Char)) :
    List Char × RefTable × List (List Char) :=
  let used_fragments := used_fragments ++ [replacement.svg]
  match title with
  | some title =>
    let figures_counter := figures_counter + 1
    let references := refInsert references refer
      (strL "Figure " ++ head_num ++ natL figures_counter)
    (format_figure replacement refer head_num figures_counter title renderer,
      references, used_fragments)
  | none =>
    if refer ≠ [] then
      let equations_counter := equations_counter + 1
      let references := refInsert references refer
        (head_num ++ natL equations_counter)
      (format_equation_block replacement refer head_num equations_counter renderer,
        references, used_fragments)
    else
      (format_equation replacement renderer, references, used_fragments)

/-- The arms of the `match` in `transform_inline_as_needed`. -/
inductive InlineArm where
  | ArmLatex (refer title : List Char)
  | ArmGnuplot (refer title : List Char)
  | ArmGnuplotOnly (refer title : List Char)
  | ArmEquTwo (refer : List Char)
  | ArmDefault
  | ArmUnknownKind (kind : List Char)
  | ArmArgCount (count : Nat)
deriving DecidableEq, Repr

/-- Pattern `[kw, _, _]`. -/
def pat3 (kw : List Char) : List (List Char) → Bool
  | [a, _, _] => a == kw
  | _ => false

/-- Pattern `["equation", _] | ["equ", _]`. -/
def patEqu2 : List (List Char) → Bool
  | [a, _] => a == strL "equation" || a == strL "equ"
  | _ => false

/-- Pattern `["equation"] | ["equ"] | _` of the fifth arm: the or-pattern
ends in a wildcard, so it matches every token list. -/
def patDefault (elms : List (List Char)) : Bool :=
  elms == [strL "equation"] || elms == [strL "equ"] || true

/-- Pattern `[_, _]` of the sixth arm. -/
def pat2 : List (List Char) → Bool
  | [_, _] => true
  | _ => false

/-- The `match` of `transform_inline_as_needed`, tried in source order; the
data of a selected arm is read off the matched positions. -/
def inlineDispatch (elms : List (List Char)) : InlineArm :=
  if pat3 (strL "latex") elms then .ArmLatex (elms.getD 1 []) (elms.getD 2 [])
  else if pat3 (strL "gnuplot") elms then .ArmGnuplot (elms.getD 1 []) (elms.getD 2 [])
  else if pat3 (strL "gnuplotonly") elms then
    .ArmGnuplotOnly (elms.getD 1 []) (elms.getD 2 [])
  else if patEqu2 elms then .ArmEquTwo (elms.getD 1 [])
  else if patDefault elms then .ArmDefault
  else if pat2 elms then .ArmUnknownKind (elms.getD 0 [])
  else .ArmArgCount elms.length

/-- `preprocess/mod.rs` `transform_inline_as_needed`, with the fragment
renderer abstracted as `env` and the result triple carrying the mutated
reference table and used-fragments list.  The two counters are local to
each call, exactly as in the source. -/
def transform_inline_as_needed (env : FragmentEnv) (dollarless : ContentM)
    (head_num : List Char) (references : RefTable)
    (used_fragments : List (List Char)) (renderer : SupportedRenderer) :
    Except TransformErr (List Char) × RefTable × List (List Char) :=
  let lineno := dollarless.start.lineno
  let content := dollarless
  let figures_counter := 0
  let equations_counter := 0
  match stripPre (strL "ref:") dollarless.s with
  | some stripped =>
    let elms := splitChar ':' stripped
    match inlineDispatch elms with
    | .ArmLatex refer title =>
      match env.parse_latex content with
      | some file =>
        let r := add_object head_num renderer references used_fragments
          figures_counter equations_counter file refer (some title)
        (Except.ok r.1, r.2.1, r.2.2)
      | none => (Except.error .FragmentFailed, references, used_fragments)
    | .ArmGnuplot refer title =>
      match env.parse_gnuplot content with
      | some file =>
        let r := add_object head_num renderer references used_fragments
          figures_counter equations_counter file refer (some title)
        (Except.ok r.1, r.2.1, r.2.2)
      | none => (Except.error .FragmentFailed, references, used_fragments)
    | .ArmGnuplotOnly refer title =>
      match env.parse_gnuplot_only content with
      | some file =>
        let r := add_object head_num renderer references used_fragments
          figures_counter equations_counter file refer (some title)
        (Except.ok r.1, r.2.1, r.2.2)
      | none => (Except.error .FragmentFailed, references, used_fragments)
    | .ArmEquTwo refer =>
      match env.generate_replacement_file_from_template content 16 with
      | some file =>
        let r := add_object head_num renderer references used_fragments
          figures_counter equations_counter file refer none
        (Except.ok r.1, r.2.1, r.2.2)
      | none => (Except.error .FragmentFailed, references, used_fragments)
    | .ArmDefault =>
      match env.generate_replacement_file_from_template content 16 with
      | some file =>
        let r := add_object head_num renderer references used_fragments
          figures_counter equations_counter file [] none
        (Except.ok r.1, r.2.1, r.2.2)
      | none => (Except.error .FragmentFailed, references, used_fragments)
    | .ArmUnknownKind kind =>
      (Except.error (.UnknownReferenceKind kind lineno), references, used_fragments)
    | .ArmArgCount count =>
      (Except.error (.UnexpectedReferenceArgCount count lineno), references,
        used_fragments)
  | none =>
    match env.generate_replacement_file_from_template dollarless 13 with
    | some replacement =>
      (Except.ok (format_inline_equation replacement renderer), references,
        used_fragments ++ [replacement.svg])
    | none => (Except.error .FragmentFailed, references, used_fragments)

/-- `preprocess/mod.rs` `transform_block_as_needed`: reference lookups
against an immutable table, with the `fig`/`bib`/`equ` arms, the
`[kind, _]` arm and the count arm in source order. -/
def transform_block_as_needed (env : FragmentEnv) (dollarless : ContentM)
    (head_num : List Char) (references : RefTable)
    (used_fragments : List (List Char)) (renderer : SupportedRenderer) :
    Except TransformErr (List Char) × List (List Char) :=
  let lineno := dollarless.start.lineno
  match stripPre (strL "ref:") dollarless.s with
  | some stripped =>
    let elms := splitChar ':' stripped
    match elms with
    | [a, refere] =>
      if a = strL "fig" then
        match refFind references refere with
        | some x => (Except.ok (figAnchor refere x), used_fragments)
        | none => (Except.error (.InvalidReference refere lineno), used_fragments)
      else if a = strL "bib" then
        match refFind references refere with
        | some x => (Except.ok (bibAnchor refere x), used_fragments)
        | none => (Except.error (.InvalidReference refere lineno), used_fragments)
      else if a = strL "equ" then
        match refFind references refere with
        | some x => (Except.ok (equAnchor refere x), used_fragments)
        | none => (Except.error (.InvalidReference refere lineno), used_fragments)
      else (Except.error (.UnknownReferenceKind a lineno), used_fragments)
    | _ =>
      (Except.error (.UnexpectedReferenceArgCount elms.length lineno),
        used_fragments)
  | none =>
    match env.generate_replacement_file_from_template dollarless 13 with
    | some replacement =>
      (Except.ok (format_inline_equation replacement renderer),
        used_fragments ++ [replacement.svg])
    | none => (Except.error .FragmentFailed, used_fragments)

/-- A renderer environment that always succeeds with a fixed artifact, for
concrete evaluations. -/
def trivReplacement : Replacement :=
  { content := { s := [], start := ⟨0, 0⟩, stop := ⟨0, 0⟩, byte_range := (0, 0),
                 delimiter := .Empty },
    intermediate := none, svg := strL "frag.svg" }

/-- See `trivReplacement`. -/
def trivEnv : FragmentEnv :=
  { parse_latex := fun _ => some trivReplacement,
    parse_gnuplot := fun _ => some trivReplacement,
    parse_gnuplot_only := fun _ => some trivReplacement,
    generate_replacement_file_from_template := fun _ _ => some trivReplacement }

/-- C2: interpreting the Render directive `equ:myeq` registers `myeq` with
label `head_num ++ "1"`, and any later Reference directive `ref:equ:myeq`
interpreted against a table still carrying that entry renders exactly
`Eq. (label)` with the identical label; with chapter prefix `"1.2."` the
label is `"1.2.1"` (see the witness). -/
theorem c2_reference_roundtrip (env : FragmentEnv) (rnd1 : SupportedRenderer)
    (head_num : List Char) (refs0 : RefTable) (frags0 : List (List Char))
    (c1 : ContentM) (r : Replacement)
    (h1 : c1.s = strL "ref:equ:myeq")
    (hg : env.generate_replacement_file_from_template c1 16 = some r) :
    ∃ L : List Char,
      refFind (transform_inline_as_needed env c1 head_num refs0 frags0 rnd1).2.1
          (strL "myeq") = some L ∧
      L = head_num ++ natL 1 ∧
      ∀ (c2 : ContentM) (T : RefTable) (frags2 : List (List Char))
        (rnd2 : SupportedRenderer),
        c2.s = strL "ref:equ:myeq" →
        refFind T (strL "myeq") = some L →
        (transform_block_as_needed env c2 head_num T frags2 rnd2).1 =
          Except.ok (equAnchor (strL "myeq") L) := by
  have hstrip : stripPre (strL "ref:") (strL "ref:equ:myeq") = some (strL "equ:myeq") := by
    decide
  have hsplit : splitChar ':' (strL "equ:myeq") = [strL "equ", strL "myeq"] := by decide
  have hdisp : inlineDispatch [strL "equ", strL "myeq"] = .ArmEquTwo (strL "myeq") := by
    decide
  have hstep : transform_inline_as_needed env c1 head_num refs0 frags0 rnd1 =
      (Except.ok (format_equation_block r (strL "myeq") head_num 1 rnd1),
        refInsert refs0 (strL "myeq") (head_num ++ natL 1),
        frags0 ++ [r.svg]) := by
    unfold transform_inline_as_needed
    rw [h1, hstrip]
    simp only [hsplit, hdisp, hg]
    unfold add_object
    dsimp only
    rw [if_pos (show strL "myeq" ≠ [] from by decide)]
  refine ⟨head_num ++ natL 1, ?_, rfl, ?_⟩
  · rw [hstep]
    exact refFind_refInsert refs0 _ _
  · intro c2 T frags2 rnd2 h2 hT
    unfold transform_block_as_needed
    rw [h2, hstrip]
    simp only [hsplit]
    rw [if_neg (show ¬ (strL "equ" = strL "fig") from by decide),
      if_neg (show ¬ (strL "equ" = strL "bib") from by decide)]
    simp only [eq_self_iff_true, if_true]
    rw [hT]

/-- Witness for C2: chapter prefix `"1.2."`, first keyed equation `myeq`
registers `"1.2.1"` and the later reference renders `Eq. (1.2.1)`. -/
theorem c2_reference_roundtrip_witness :
    refFind (transform_inline_as_needed trivEnv
        { s := strL "ref:equ:myeq", start := ⟨0, 1⟩, stop := ⟨2, 1⟩,
          byte_range := (0, 0), delimiter := .Start (strL "$$") }
        (strL "1.2.") [] [] .Html).2.1 (strL "myeq") = some (strL "1.2.1") ∧
    (transform_block_as_needed trivEnv
        { s := strL "ref:equ:myeq", start := ⟨5, 0⟩, stop := ⟨5, 14⟩,
          byte_range := (0, 0), delimiter := .Start (strL "$") }
        (strL "1.2.")
        (transform_inline_as_needed trivEnv
          { s := strL "ref:equ:myeq", start := ⟨0, 1⟩, stop := ⟨2, 1⟩,
            byte_range := (0, 0), delimiter := .Start (strL "$$") }
          (strL "1.2.") [] [] .Html).2.1 [] .Html).1 =
      Except.ok (equAnchor (strL "myeq") (strL "1.2.1")) := by
  obtain ⟨L, hL, hLv, hblock⟩ := c2_reference_roundtrip trivEnv .Html (strL "1.2.")
    [] []
    { s := strL "ref:equ:myeq", start := ⟨0, 1⟩, stop := ⟨2, 1⟩,
      byte_range := (0, 0), delimiter := .Start (strL "$$") }
    trivReplacement rfl rfl
  have hLc : L = strL "1.2.1" := by rw [hLv]; decide
  rw [hLc] at hL hblock
  exact ⟨hL, hblock
    { s := strL "ref:equ:myeq", start := ⟨5, 0⟩, stop := ⟨5, 14⟩,
      byte_range := (0, 0), delimiter := .Start (strL "$") }
    _ [] .Html rfl hL⟩

/-- C5: the figure and equation counters are claimed to be per-chapter. The
code re-initializes both to zero inside `transform_inline_as_needed` on
every span, so every keyed equation of a chapter is registered with counter
value 1: two successive keyed equation directives with chapter prefix
`"1.2."` both register label `"1.2.1"`, where the claim requires the second
to register `"1.2.2"`. -/
theorem c5_counters_reset_per_span :
    (transform_inline_as_needed trivEnv
        { s := strL "ref:equ:bbb", start := ⟨2, 0⟩, stop := ⟨2, 0⟩,
          byte_range := (0, 0), delimiter := .Start (strL "$$") }
        (strL "1.2.")
        (transform_inline_as_needed trivEnv
          { s := strL "ref:equ:aaa", start := ⟨0, 0⟩, stop := ⟨0, 0⟩,
            byte_range := (0, 0), delimiter := .Start (strL "$$") }
          (strL "1.2.") [] [] .Html).2.1
        (transform_inline_as_needed trivEnv
          { s := strL "ref:equ:aaa", start := ⟨0, 0⟩, stop := ⟨0, 0⟩,
            byte_range := (0, 0), delimiter := .Start (strL "$$") }
          (strL "1.2.") [] [] .Html).2.2 .Html).2.1 =
      [(strL "aaa", strL "1.2.1"), (strL "bbb", strL "1.2.1")] ∧
    strL "1.2.1" ≠ strL "1.2.2" := by
  refine ⟨by decide, by decide⟩

instance : DecidableEq (Except TransformErr (List Char))
  | .ok a, .ok b =>
    if h : a = b then isTrue (by rw [h])
    else isFalse (fun hc => h (Except.ok.inj hc))
  | .ok _, .error _ => isFalse (fun hc => Except.noConfusion hc)
  | .error _, .ok _ => isFalse (fun hc => Except.noConfusion hc)
  | .error a, .error b =>
    if h : a = b then isTrue (by rw [h])
    else isFalse (fun hc => h (Except.error.inj hc))

/-- C8: a missing reference key fails with `InvalidReference` carrying the
key — but the line number is the scanner's 0-based line index, not a 1-based
one: the directive `$ref:equ:nokey$` on the document's first line produces a
span whose start has `lineno = 0`, and interpretation against an empty table
fails with `InvalidReference` carrying `nokey` and line number 0, where a
1-based count would give 1. -/
theorem c8_invalid_reference_zero_based :
    (iter_over_dollar_encompassed_blocks (strL "$ref:equ:nokey$")
        (dollar_split_tags_iter (strL "$ref:equ:nokey$"))).map
        (List.map (fun t => t.content.start.lineno)) = some [0] ∧
    transform_block_as_needed trivEnv
        { s := strL "ref:equ:nokey", start := ⟨0, 0⟩, stop := ⟨0, 14⟩,
          byte_range := (0, 15), delimiter := .Start (strL "$") }
        (strL "1.2.") [] [] .Html =
      (Except.error (.InvalidReference (strL "nokey") 0), []) ∧
    (0 : Nat) ≠ 1 := by
  refine ⟨by decide, by decide, by decide⟩

theorem inlineDispatch_cases (elms : List (List Char)) :
    inlineDispatch elms = .ArmLatex (elms.getD 1 []) (elms.getD 2 []) ∨
    inlineDispatch elms = .ArmGnuplot (elms.getD 1 []) (elms.getD 2 []) ∨
    inlineDispatch elms = .ArmGnuplotOnly (elms.getD 1 []) (elms.getD 2 []) ∨
    inlineDispatch elms = .ArmEquTwo (elms.getD 1 []) ∨
    inlineDispatch elms = .ArmDefault := by
  unfold inlineDispatch
  split
  · exact Or.inl rfl
  · split
    · exact Or.inr (Or.inl rfl)
    · split
      · exact Or.inr (Or.inr (Or.inl rfl))
      · split
        · exact Or.inr (Or.inr (Or.inr (Or.inl rfl)))
        · rw [if_pos (show patDefault elms = true from by simp [patDefault])]
          exact Or.inr (Or.inr (Or.inr (Or.inr rfl)))

theorem transform_inline_result_shape (env : FragmentEnv) (c : ContentM)
    (head_num : List Char) (refs : RefTable) (frags : List (List Char))
    (rnd : SupportedRenderer) :
    (∃ s, (transform_inline_as_needed env c head_num refs frags rnd).1 =
      Except.ok s) ∨
    (transform_inline_as_needed env c head_num refs frags rnd).1 =
      Except.error .FragmentFailed := by
  unfold transform_inline_as_needed
  cases hsp : stripPre (strL "ref:") c.s with
  | none =>
    dsimp only
    cases hg : env.generate_replacement_file_from_template c 13 with
    | none => exact Or.inr rfl
    | some repl => exact Or.inl ⟨_, rfl⟩
  | some stripped =>
    dsimp only
    rcases inlineDispatch_cases (splitChar ':' stripped) with hd | hd | hd | hd | hd <;>
      rw [hd]
    · cases hg : env.parse_latex c with
      | none => exact Or.inr rfl
      | some file => exact Or.inl ⟨_, rfl⟩
    · cases hg : env.parse_gnuplot c with
      | none => exact Or.inr rfl
      | some file => exact Or.inl ⟨_, rfl⟩
    · cases hg : env.parse_gnuplot_only c with
      | none => exact Or.inr rfl
      | some file => exact Or.inl ⟨_, rfl⟩
    · cases hg : env.generate_replacement_file_from_template c 16 with
      | none => exact Or.inr rfl
      | some file => exact Or.inl ⟨_, rfl⟩
    · cases hg : env.generate_replacement_file_from_template c 16 with
      | none => exact Or.inr rfl
      | some file => exact Or.inl ⟨_, rfl⟩

/-- C10: in `transform_inline_as_needed` the `UnknownReferenceKind` and
`UnexpectedReferenceArgCount` arms are unreachable for every input (the
fifth arm's or-pattern ends in `_`), and any `ref:`-prefixed body whose
token list matches none of the three-token latex/gnuplot/gnuplotonly
patterns nor the equation/equ patterns is caught by the wildcard arm and,
when the renderer succeeds, is rendered as an unlabelled equation with the
reference table untouched. -/
theorem c10_wildcard_catches_all :
    (∀ (env : FragmentEnv) (c : ContentM) (head_num : List Char)
        (refs : RefTable) (frags : List (List Char)) (rnd : SupportedRenderer)
        (k : List Char) (n ln ln2 : Nat),
      (transform_inline_as_needed env c head_num refs frags rnd).1 ≠
        Except.error (.UnknownReferenceKind k ln) ∧
      (transform_inline_as_needed env c head_num refs frags rnd).1 ≠
        Except.error (.UnexpectedReferenceArgCount n ln2)) ∧
    (∀ (env : FragmentEnv) (c : ContentM) (head_num : List Char)
        (refs : RefTable) (frags : List (List Char)) (rnd : SupportedRenderer)
        (rest : List Char) (r : Replacement),
      c.s = strL "ref:" ++ rest →
      pat3 (strL "latex") (splitChar ':' rest) = false →
      pat3 (strL "gnuplot") (splitChar ':' rest) = false →
      pat3 (strL "gnuplotonly") (splitChar ':' rest) = false →
      patEqu2 (splitChar ':' rest) = false →
      ¬ (splitChar ':' rest = [strL "equation"] ∨ splitChar ':' rest = [strL "equ"]) →
      env.generate_replacement_file_from_template c 16 = some r →
      inlineDispatch (splitChar ':' rest) = .ArmDefault ∧
      (transform_inline_as_needed env c head_num refs frags rnd).1 =
        Except.ok (format_equation r rnd) ∧
      (transform_inline_as_needed env c head_num refs frags rnd).2.1 = refs) := by
  constructor
  · intro env c head_num refs frags rnd k n ln ln2
    rcases transform_inline_result_shape env c head_num refs frags rnd with ⟨s, hs⟩ | hs <;>
      rw [hs] <;> exact ⟨by simp, by simp⟩
  · intro env c head_num refs frags rnd rest r hcs hp1 hp2 hp3 hp4 _hp5 hg
    have hd : inlineDispatch (splitChar ':' rest) = .ArmDefault := by
      unfold inlineDispatch
      simp only [hp1, hp2, hp3, hp4, Bool.false_eq_true, if_false]
      rw [if_pos (show patDefault (splitChar ':' rest) = true from by simp [patDefault])]
    refine ⟨hd, ?_, ?_⟩
    all_goals
      unfold transform_inline_as_needed
      rw [hcs, stripPre_append]
      dsimp only
      rw [hd]
      simp only [hg]
      unfold add_object
      dsimp only
      rw [if_neg (show ¬ (([] : List Char) ≠ []) from fun h => h rfl)]

/-- Witness for C10: the body `ref:foo:x` is caught by the wildcard arm and
rendered as an unlabelled equation, leaving the table untouched. -/
theorem c10_wildcard_catches_all_witness :
    inlineDispatch (splitChar ':' (strL "foo:x")) = .ArmDefault ∧
    (transform_inline_as_needed trivEnv
        { s := strL "ref:foo:x", start := ⟨0, 0⟩, stop := ⟨0, 0⟩,
          byte_range := (0, 0), delimiter := .Start (strL "$$") }
        (strL "1.") [(strL "k", strL "v")] [] .Html).1 =
      Except.ok (format_equation trivReplacement .Html) ∧
    (transform_inline_as_needed trivEnv
        { s := strL "ref:foo:x", start := ⟨0, 0⟩, stop := ⟨0, 0⟩,
          byte_range := (0, 0), delimiter := .Start (strL "$$") }
        (strL "1.") [(strL "k", strL "v")] [] .Html).2.1 =
      [(strL "k", strL "v")] := by
  obtain ⟨hd, h1, h2⟩ := c10_wildcard_catches_all.2 trivEnv
    { s := strL "ref:foo:x", start := ⟨0, 0⟩, stop := ⟨0, 0⟩,
      byte_range := (0, 0), delimiter := .Start (strL "$$") }
    (strL "1.") [(strL "k", strL "v")] [] .Html (strL "foo:x") trivReplacement
    (by decide) (by decide) (by decide) (by decide) (by decide) (by decide) rfl
  exact ⟨hd, h1, h2⟩
